import Mathlib

/-!
Verification of the tianshou return-estimation and lagged-network subsystems.

Shallow embedding of the Python sources under `tianshou/policy/` over exact
rational arithmetic (`ℚ` stands for the float tensors; `List` stands for the
batch dimension). Parts of the library that the excerpted files import but
whose sources are not part of the excerpt (the `Algorithm` base class in
`policy/base.py`, the replay buffer, `RunningMeanStd`) are modelled from the
specification document and are marked `Modelled from the spec:` in their
doc comments.
-/

namespace Tianshou

/-! ## Data model -/

/-- One stored transition's reward and episode-boundary flags
(spec section 3, "Transition"). -/
structure Transition where
  rew : ℚ
  terminated : Bool
  truncated : Bool
  deriving DecidableEq, Repr

/-- Modelled from the spec: the stored `done` flag of a batch marks an episode
boundary, i.e. `done = terminated or truncated` (spec section 3 invariant and
glossary "Episode boundary"); the buffer code that materialises the flag is not
part of the excerpt. -/
def Transition.done (t : Transition) : Bool :=
  t.terminated || t.truncated

/-! ## DiscreteCRR one-step critic target (discrete_crr.py, lines 119-128)

The critic target is `rew + gamma * expected_target_q`, where
`expected_target_q[batch.done > 0] = 0.0` zeroes the bootstrap term on every
transition whose `done` flag is set. -/

/-- Embeds the target computation of `DiscreteCRR._update_with_batch`
(discrete_crr.py lines 124-127): `expected_target_q` is zeroed whenever the
transition's `done` flag is set, and the target is
`rew + gamma * expected_target_q`. -/
def crrCriticTarget (gamma : ℚ) (t : Transition) (expectedTargetQ : ℚ) : ℚ :=
  t.rew + gamma * (if t.done then 0 else expectedTargetQ)

/-! ## Lagged-network synchronization

The two synchronization operations of the lagged-network manager live in
`policy/base.py`, which is not part of the excerpt; they are modelled from
spec section 4.4. A registered pair is a `(source, shadow)` pair of parameter
values. -/

/-- Modelled from the spec: full update, "shadow's parameters are overwritten
byte-for-byte with source's current parameters", applied to every registered
pair in one call (spec section 4.4). -/
def fullUpdate (pairs : List (ℚ × ℚ)) : List (ℚ × ℚ) :=
  pairs.map (fun p => (p.1, p.1))

/-- Modelled from the spec: Polyak update `shadow ← τ·source + (1-τ)·shadow`,
applied identically to every registered pair in one call (spec section 4.4). -/
def polyakUpdate (tau : ℚ) (pairs : List (ℚ × ℚ)) : List (ℚ × ℚ) :=
  pairs.map (fun p => (p.1, tau * p.1 + (1 - tau) * p.2))

/-- Shared state of an algorithm's lagged-network pairs together with the
algorithm-owned step counter (`_iter` / `_cnt` / `critic_gradient_step`). -/
structure AlgState where
  pairs : List (ℚ × ℚ)
  cnt : ℕ
  deriving DecidableEq, Repr

/-! ### Polyak-mode consumers (`_update_with_batch` bodies)

Only the lagged-network side effects of each `_update_with_batch` are
embedded; the gradient steps act on networks outside this core. -/

/-- Embeds `DDPG._update_with_batch` (ddpg.py lines 339-348): the Polyak
update is invoked unconditionally, once per call. -/
def ddpgUpdateWithBatch (tau : ℚ) (s : AlgState) : AlgState :=
  { s with pairs := polyakUpdate tau s.pairs }

/-- Embeds `TD3._update_with_batch` (td3.py lines 168-184): the Polyak update
is invoked only on calls with `_cnt % update_actor_freq == 0` (together with
the delayed actor update); `_cnt` is incremented on every call. The embedding
is faithful for `update_actor_freq > 0` (a zero frequency would raise
`ZeroDivisionError` in Python; the default is 2). -/
def td3UpdateWithBatch (tau : ℚ) (updateActorFreq : ℕ) (s : AlgState) : AlgState :=
  let pairs' := if s.cnt % updateActorFreq == 0 then polyakUpdate tau s.pairs else s.pairs
  { pairs := pairs', cnt := s.cnt + 1 }

/-- Embeds `REDQ._update_with_batch` (redq.py lines 185-212): the critic
gradient step counter is incremented and the actor update is gated on
`critic_gradient_step % actor_delay == 0`, but the Polyak update is invoked
unconditionally, once per call. -/
def redqUpdateWithBatch (tau : ℚ) (actorDelay : ℕ) (s : AlgState) : AlgState :=
  let _ := actorDelay
  { pairs := polyakUpdate tau s.pairs, cnt := s.cnt + 1 }

/-- Embeds `DiscreteSAC._update_with_batch` (discrete_sac.py lines 135-166):
the Polyak update is invoked unconditionally, once per call. -/
def discreteSacUpdateWithBatch (tau : ℚ) (s : AlgState) : AlgState :=
  { s with pairs := polyakUpdate tau s.pairs }

/-! ### Periodic full-update consumers -/

/-- Embeds `QLearningOffPolicyAlgorithm.use_target_network` (dqn.py lines
237-239): a lagged network exists iff `target_update_freq > 0`. -/
def dqnUseTargetNetwork (targetUpdateFreq : ℕ) : Bool :=
  targetUpdateFreq > 0

/-- Embeds the trigger condition of
`QLearningOffPolicyAlgorithm._periodically_update_lagged_network_weights`
(dqn.py lines 266-274): a full update is performed iff a target network is in
use and the zero-based call counter `_iter` is divisible by
`target_update_freq`. -/
def dqnPeriodicTrigger (targetUpdateFreq iter : ℕ) : Bool :=
  dqnUseTargetNetwork targetUpdateFreq && iter % targetUpdateFreq == 0

/-- Embeds the state transition of
`_periodically_update_lagged_network_weights` (dqn.py lines 266-274): on a
triggering call the shadows are fully overwritten; `_iter` is incremented on
every call. -/
def dqnPeriodicStep (targetUpdateFreq : ℕ) (s : AlgState) : AlgState :=
  { pairs :=
      if dqnPeriodicTrigger targetUpdateFreq s.cnt then fullUpdate s.pairs else s.pairs
    cnt := s.cnt + 1 }

/-- Embeds the trigger condition of `DiscreteBCQ._update_with_batch`
(discrete_bcq.py lines 193-195): `self._iter % self.freq == 0`, with no guard
on `self._target`; with `freq = 0` the Python modulo raises
`ZeroDivisionError`. -/
def bcqPeriodicTrigger (freq iter : ℕ) : Except String Bool :=
  if freq = 0 then Except.error "ZeroDivisionError"
  else Except.ok (iter % freq == 0)

/-- Embeds the trigger condition of `DiscreteCRR._update_with_batch`
(discrete_crr.py lines 114-115): `self._target and self._iter % self._freq == 0`,
where `self._target = target_update_freq > 0` (line 84); the short-circuiting
`and` protects the modulo when `freq = 0`. -/
def crrPeriodicTrigger (freq iter : ℕ) : Bool :=
  (freq > 0 : Bool) && iter % freq == 0

/-- Embeds the lagged-network creation condition of
`QLearningOffPolicyAlgorithm.__init__` (dqn.py lines 230-232): `model_old` is
created iff `use_target_network`. -/
def dqnCreatesLaggedNetwork (targetUpdateFreq : ℕ) : Bool :=
  dqnUseTargetNetwork targetUpdateFreq

/-- Embeds the lagged-network creation condition of `DiscreteBCQ.__init__`
(discrete_bcq.py lines 153-157): `model_old` is created iff `self._target`,
i.e. iff `target_update_freq > 0`. -/
def bcqCreatesLaggedNetwork (targetUpdateFreq : ℕ) : Bool :=
  targetUpdateFreq > 0

/-- Embeds the lagged-network creation condition of `DiscreteCRR.__init__`
(discrete_crr.py lines 84-92): lagged copies are created iff `self._target`,
i.e. iff `target_update_freq > 0`. -/
def crrCreatesLaggedNetwork (targetUpdateFreq : ℕ) : Bool :=
  targetUpdateFreq > 0

/-! ## Return / advantage estimation (spec section 4.3)

`Algorithm.compute_episodic_return` and the GAE recursion live in
`policy/base.py` / the buffer utilities, which are not part of the excerpt;
they are modelled from the spec's formulas. A batch is a chronologically
ordered list of steps, each carrying the reward, the caller-supplied value
estimates `V(s_i)` (field `v_s`) and `V(s_{i+1})` (field `v_s_`), and the
done flag; the head of the list is the oldest step. -/

/-- One step of a batch handed to the return estimator. -/
structure Step where
  rew : ℚ
  v_s : ℚ
  v_s_ : ℚ
  done : Bool
  deriving DecidableEq, Repr

/-- The factor `(1 - done_i)` of the spec's formulas. -/
def notDone (s : Step) : ℚ :=
  if s.done then 0 else 1

/-- Modelled from the spec: the TD residual
`δ_i = r_i + γ·V(s_{i+1})·(1 - done_i) - V(s_i)` (spec section 4.3, GAE). -/
def tdDelta (gamma : ℚ) (s : Step) : ℚ :=
  s.rew + gamma * s.v_s_ * notDone s - s.v_s

/-- Modelled from the spec: the GAE backward recursion
`A_i = δ_i + γλ·(1 - done_i)·A_{i+1}` evaluated in reverse chronological
order, with the accumulator starting at 0 past the end of the batch
(spec section 4.3, GAE). -/
def gaeAdv (gamma lam : ℚ) : List Step → List ℚ
  | [] => []
  | s :: rest =>
    (tdDelta gamma s + gamma * lam * notDone s * (gaeAdv gamma lam rest).headD 0)
      :: gaeAdv gamma lam rest

/-- Modelled from the spec: the full Monte-Carlo discounted return
`G_i = r_i + γ·(1 - done_i)·G_{i+1}`, where the final step of the batch
bootstraps from the caller-supplied value estimate `v_s_` instead of walking
off the end of recorded data (spec section 4.3, full Monte-Carlo return). -/
def mcReturn (gamma : ℚ) : List Step → List ℚ
  | [] => []
  | s :: rest =>
    (s.rew + gamma * notDone s * ((mcReturn gamma rest).headD s.v_s_))
      :: mcReturn gamma rest

/-- Modelled from the spec: `compute_episodic_return` yields
`returns_i = V(s_i) + A_i` (spec section 4.3, "Returns are then V(s_i) + A_i"). -/
def episodicReturn (gamma lam : ℚ) (l : List Step) : List ℚ :=
  List.zipWith (fun a v => a + v) (gaeAdv gamma lam l) (l.map Step.v_s)

/-- Embeds `DiscountedReturnComputation.add_discounted_returns`
(pg.py lines 220-229): the unnormalized returns are computed by calling the
episodic-return computation with `gae_lambda = 1.0`. -/
def discountedReturnUnnormalized (gamma : ℚ) (l : List Step) : List ℚ :=
  episodicReturn gamma 1 l

/-- Adjacent-step value consistency: within an episode — i.e. at every
adjacent pair whose first step is not an episode boundary — the caller's
`V(s_{i+1})` estimate of a step equals the `V(s_i)` estimate of the
chronologically following step (both are the critic applied to the same
observation). Across a `done` boundary no condition is imposed: there the
next list entry starts a different episode and the bootstrap term carries
the factor `(1 - done_i) = 0` anyway. -/
def valueChain (l : List Step) : Prop :=
  List.Chain' (fun a b => a.done = false → a.v_s_ = b.v_s) l

instance : DecidablePred valueChain := fun l =>
  inferInstanceAs (Decidable (List.Chain' _ l))

/-! ## Running statistics and reward normalization -/

/-- Modelled from the spec: the online mean/variance estimator with count `n`,
mean `μ` and variance accumulator `M2` (spec section 3, "RunningStats"); the
source `RunningMeanStd` is not part of the excerpt. -/
structure RunningStats where
  n : ℕ
  mean : ℚ
  M2 : ℚ
  deriving DecidableEq, Repr

/-- Mean of one batch of scalars. -/
def batchMean (xs : List ℚ) : ℚ :=
  xs.sum / (xs.length : ℚ)

/-- Sum of squared deviations of one batch of scalars. -/
def batchM2 (xs : List ℚ) : ℚ :=
  (xs.map (fun x => (x - batchMean xs) ^ 2)).sum

/-- Modelled from the spec: the batched (parallel) Welford merge of one batch
into the running aggregate (spec sections 3 and 4.5). -/
def RunningStats.update (s : RunningStats) (xs : List ℚ) : RunningStats :=
  let m := xs.length
  let total := s.n + m
  let delta := batchMean xs - s.mean
  { n := total
    mean := s.mean + delta * (m : ℚ) / (total : ℚ)
    M2 := s.M2 + batchM2 xs + delta ^ 2 * (s.n : ℚ) * (m : ℚ) / (total : ℚ) }

/-- Embeds the normalization of pg.py lines 233-236:
`(returns - ret_rms.mean) / sqrt(ret_rms.var + eps)`. The divisor
`sqrt(var + eps)`, a float computation with no exact rational counterpart, is
abstracted as the parameter `std`, a function of the running statistics. -/
def normalizeReturns (std : RunningStats → ℚ) (s : RunningStats) (xs : List ℚ) : List ℚ :=
  xs.map (fun x => (x - s.mean) / std s)

/-- Embeds the per-batch normalize-then-update sequence of
`DiscountedReturnComputation.add_discounted_returns` (pg.py lines 233-239)
applied to a stream of batches of unnormalized returns: each batch is
normalized with the current statistics, and only afterwards are the
statistics updated with that batch's unnormalized returns. -/
def processBatches (std : RunningStats → ℚ) (s : RunningStats) :
    List (List ℚ) → List (List ℚ) × RunningStats
  | [] => ([], s)
  | b :: bs =>
    let out := normalizeReturns std s b
    let rest := processBatches std (s.update b) bs
    (out :: rest.1, rest.2)

/-! ## A2C GAE pipeline with value normalization (a2c.py lines 82-120) -/

/-- Embeds the value unnormalization of a2c.py lines 101-103:
`v_s * sqrt(ret_rms.var + eps)` and `v_s_ * sqrt(ret_rms.var + eps)`, with the
float `sqrt(ret_rms.var + eps)` abstracted as the parameter `sigma`. -/
def scaleValues (sigma : ℚ) (l : List Step) : List Step :=
  l.map (fun s => { s with v_s := s.v_s * sigma, v_s_ := s.v_s_ * sigma })

/-- Embeds `ActorCriticOnPolicyAlgorithm._add_returns_and_advantages`
(a2c.py lines 82-120): when `rew_norm` is set, the critic's value estimates
are first unnormalized by the factor `sigma` (standing for
`sqrt(ret_rms.var + eps)`), the episodic returns and GAE advantages are
computed from the unnormalized values, and the returns are renormalized by
dividing by `sigma`; when `rew_norm` is not set, values and returns pass
through unchanged. The result is the pair `(returns, advantages)`. -/
def addReturnsAndAdvantages (rewNorm : Bool) (sigma gamma lam : ℚ)
    (l : List Step) : List ℚ × List ℚ :=
  let l' := if rewNorm then scaleValues sigma l else l
  let unnormalizedReturns := episodicReturn gamma lam l'
  let advantages := gaeAdv gamma lam l'
  let returns :=
    if rewNorm then unnormalizedReturns.map (fun x => x / sigma)
    else unnormalizedReturns
  (returns, advantages)

/-! ## Construction-time hyperparameter validation (spec section 7)

Each definition records exactly the checks the corresponding constructor
performs (`assert` statements / raised `ValueError`s); `true` means the
constructor accepts the arguments. -/

/-- Embeds the checks of `ActorCriticOffPolicyAlgorithm.__init__`
(ddpg.py lines 183-219): `assert 0.0 <= tau <= 1.0` and
`assert 0.0 <= gamma <= 1.0`; `estimation_step` is stored without any check. -/
def actorCriticOffPolicyInitOk (tau gamma : ℚ) (estimationStep : ℤ) : Bool :=
  let _ := estimationStep
  decide (0 ≤ tau ∧ tau ≤ 1) && decide (0 ≤ gamma ∧ gamma ≤ 1)

/-- Embeds the checks of `ActorCriticOnPolicyAlgorithm.__init__`
(a2c.py lines 39-80): `assert 0.0 <= gae_lambda <= 1.0`; `discount_factor` is
stored without any check. -/
def actorCriticOnPolicyInitOk (gaeLambda gamma : ℚ) : Bool :=
  let _ := gamma
  decide (0 ≤ gaeLambda ∧ gaeLambda ≤ 1)

/-- Embeds the checks of `QLearningOffPolicyAlgorithm.__init__`
(dqn.py lines 193-232): `assert 0.0 <= discount_factor <= 1.0` and
`assert estimation_step > 0`. -/
def qLearningInitOk (gamma : ℚ) (estimationStep : ℤ) : Bool :=
  decide (0 ≤ gamma ∧ gamma ≤ 1) && decide (0 < estimationStep)

/-- Embeds the checks of `DiscountedReturnComputation.__init__`
(pg.py line 192): `assert 0.0 <= discount_factor <= 1.0`. -/
def discountedReturnInitOk (gamma : ℚ) : Bool :=
  decide (0 ≤ gamma ∧ gamma ≤ 1)

/-- Embeds the checks of `REDQ.__init__` (redq.py lines 139-154): a
`ValueError` unless `0 < subset_size <= ensemble_size`, followed by the
inherited `ActorCriticOffPolicyAlgorithm` checks. -/
def redqInitOk (subsetSize ensembleSize : ℕ) (tau gamma : ℚ)
    (estimationStep : ℤ) : Bool :=
  decide (0 < subsetSize ∧ subsetSize ≤ ensembleSize)
    && actorCriticOffPolicyInitOk tau gamma estimationStep

/-! ## DiscreteCRR construction (discrete_crr.py lines 41-96) -/

/-- The attribute names assigned on the `DiscreteCRR` algorithm object before
the `if self._target:` branch (discrete_crr.py lines 74-86). `policy` is the
assignment performed by the base-class constructor. Modelled from the spec:
the base algorithm classes of `policy/base.py` (not part of the excerpt)
assign no attribute named `actor` — the actor network is owned by the policy
object (spec sections 3 and 9). -/
def crrPreBranchAttrs : List String :=
  ["policy", "discounted_return_computation", "critic", "optim",
   "_target", "_freq", "_iter"]

/-- Embeds the remainder of `DiscreteCRR.__init__` (discrete_crr.py lines
87-96): with `target_update_freq > 0` the lagged copies `actor_old` and
`critic_old` are registered and construction completes; with
`target_update_freq = 0` the line `self.actor_old = self.actor` reads the
attribute `actor`, which was never assigned, so construction fails with an
`AttributeError`. Returns the attributes of the constructed object. -/
def crrInit (targetUpdateFreq : ℕ) : Except String (List String) :=
  let attrs := crrPreBranchAttrs
  let tailAttrs := ["_policy_improvement_mode", "_ratio_upper_bound", "_beta",
                    "_min_q_weight"]
  if targetUpdateFreq > 0 then
    Except.ok (attrs ++ ["actor_old", "critic_old"] ++ tailAttrs)
  else
    if attrs.contains "actor" then
      Except.ok (attrs ++ ["actor_old", "critic_old"] ++ tailAttrs)
    else
      Except.error "AttributeError: DiscreteCRR object has no attribute actor"

/-! ## DQNPolicy action masking (dqn.py lines 104-157)

A batch of action values with its mask is represented as a list of rows, each
row a list of `(logit, allowed)` pairs — the source stores the logits tensor
and the mask tensor separately with equal shape, which the paired
representation captures structurally. `allowed = true` corresponds to a mask
entry of 1. -/

/-- Maximum of a list folded from a starting value (the reduction underlying
`tensor.max()`). -/
def foldMax (x : ℚ) (xs : List ℚ) : ℚ :=
  xs.foldl max x

/-- Minimum of a list folded from a starting value (the reduction underlying
`tensor.min()`). -/
def foldMin (x : ℚ) (xs : List ℚ) : ℚ :=
  xs.foldl min x

/-- Maximum of a list of rationals (0 for the empty list, which the reductions
below never hit). -/
def listMax : List ℚ → ℚ
  | [] => 0
  | x :: xs => foldMax x xs

/-- Minimum of a list of rationals (0 for the empty list, which the reductions
below never hit). -/
def listMin : List ℚ → ℚ
  | [] => 0
  | x :: xs => foldMin x xs

/-- `logits.max()`: the maximum over all entries of the batch tensor. -/
def tensorMax (rows : List (List ℚ)) : ℚ :=
  listMax rows.flatten

/-- `logits.min()`: the minimum over all entries of the batch tensor. -/
def tensorMin (rows : List (List ℚ)) : ℚ :=
  listMin rows.flatten

/-- The shift applied to masked entries in `DQNPolicy.compute_q_value`
(dqn.py line 155): `logits.min() - logits.max() - 1.0`. -/
def dqnMinValue (rows : List (List (ℚ × Bool))) : ℚ :=
  let logits := rows.map (fun r => r.map Prod.fst)
  tensorMin logits - tensorMax logits - 1

/-- The element-wise effect of `q = logits + (1 - mask) * min_value`
(dqn.py line 156): an allowed entry (mask 1) keeps its logit, a disallowed
entry (mask 0) is shifted by `min_value`. -/
def dqnShiftEntry (minValue : ℚ) (p : ℚ × Bool) : ℚ × Bool :=
  (p.1 + (if p.2 then 0 else 1) * minValue, p.2)

/-- Embeds `DQNPolicy.compute_q_value` (dqn.py lines 151-157):
`q = logits + (1 - mask) * min_value`, keeping each entry's mask bit
alongside its shifted value. -/
def dqnComputeQ (rows : List (List (ℚ × Bool))) : List (List (ℚ × Bool)) :=
  rows.map (fun r => r.map (dqnShiftEntry (dqnMinValue rows)))

/-- Embeds the action selection of `DQNPolicy.forward` (dqn.py line 147):
`act = q.argmax(dim=1)`, row-wise first-maximum selection over the masked
q-values (returned here as the chosen entry of each row). -/
def dqnForwardActs (rows : List (List (ℚ × Bool))) : List (Option (ℚ × Bool)) :=
  (dqnComputeQ rows).map (fun r => r.argmax Prod.fst)

/-! ## DiscreteBCQPolicy action masking (discrete_bcq.py lines 25-97)

A row is a list of `(q_value, imitation_logit)` pairs, one per action. The
stored threshold `_log_tau` is `log(unlikely_action_threshold)` for a positive
threshold and `-inf` for a zero threshold (discrete_bcq.py lines 74-77),
represented as `WithBot ℚ` with `⊥` standing for `-inf`; the float logarithm
itself has no exact rational counterpart, so the embedding is parameterized
directly by the stored `_log_tau`. -/

/-- `INF` of discrete_bcq.py lines 25-26: `torch.finfo(torch.float32).max`. -/
def bcqINF : ℚ :=
  340282346638528859811704183484516925440

/-- The maximum imitation logit of a row
(`imitation_logits.max(dim=-1, keepdim=True).values`, discrete_bcq.py line 92). -/
def bcqMaxLogit (row : List (ℚ × ℚ)) : ℚ :=
  listMax (row.map Prod.snd)

/-- Embeds the mask of discrete_bcq.py lines 92-93: an action is masked iff
its logit ratio `imitation_logit - max_logit` is strictly below `_log_tau`. -/
def bcqMask (logTau : WithBot ℚ) (maxLogit logit : ℚ) : Bool :=
  decide ((logit - maxLogit : ℚ) < logTau)

/-- Embeds the action selection of discrete_bcq.py line 94:
`act = (q_value - INF * mask).argmax(dim=-1)`, returned here as the chosen
`(q_value, imitation_logit)` entry of the row. -/
def bcqForward (logTau : WithBot ℚ) (row : List (ℚ × ℚ)) : Option (ℚ × ℚ) :=
  let maxLogit := bcqMaxLogit row
  row.argmax (fun p =>
    p.1 - bcqINF * (if bcqMask logTau maxLogit p.2 then 1 else 0))

/-! ## Helper lemmas -/

lemma le_foldMax_init (x : ℚ) (xs : List ℚ) : x ≤ foldMax x xs := by
  induction xs generalizing x with
  | nil => simp [foldMax]
  | cons y ys ih =>
    have h : foldMax x (y :: ys) = foldMax (max x y) ys := rfl
    rw [h]
    exact le_trans (le_max_left x y) (ih (max x y))

lemma le_foldMax_of_mem {a : ℚ} {xs : List ℚ} (x : ℚ) (h : a ∈ xs) :
    a ≤ foldMax x xs := by
  induction xs generalizing x with
  | nil => cases h
  | cons y ys ih =>
    have hfx : foldMax x (y :: ys) = foldMax (max x y) ys := rfl
    rw [hfx]
    rcases List.mem_cons.mp h with rfl | h'
    · exact le_trans (le_max_right x a) (le_foldMax_init (max x a) ys)
    · exact ih (max x y) h'

lemma foldMax_mem (x : ℚ) (xs : List ℚ) : foldMax x xs ∈ x :: xs := by
  induction xs generalizing x with
  | nil => simp [foldMax]
  | cons y ys ih =>
    have hfx : foldMax x (y :: ys) = foldMax (max x y) ys := rfl
    rw [hfx]
    rcases List.mem_cons.mp (ih (max x y)) with heq | hmem
    · rcases max_choice x y with hx | hy
      · rw [heq, hx]; exact List.mem_cons_self x (y :: ys)
      · rw [heq, hy]
        exact List.mem_cons_of_mem x (List.mem_cons_self y ys)
    · exact List.mem_cons_of_mem x (List.mem_cons_of_mem y hmem)

lemma foldMin_le_init (x : ℚ) (xs : List ℚ) : foldMin x xs ≤ x := by
  induction xs generalizing x with
  | nil => simp [foldMin]
  | cons y ys ih =>
    have h : foldMin x (y :: ys) = foldMin (min x y) ys := rfl
    rw [h]
    exact le_trans (ih (min x y)) (min_le_left x y)

lemma foldMin_le_of_mem {a : ℚ} {xs : List ℚ} (x : ℚ) (h : a ∈ xs) :
    foldMin x xs ≤ a := by
  induction xs generalizing x with
  | nil => cases h
  | cons y ys ih =>
    have hfx : foldMin x (y :: ys) = foldMin (min x y) ys := rfl
    rw [hfx]
    rcases List.mem_cons.mp h with rfl | h'
    · exact le_trans (foldMin_le_init (min x a) ys) (min_le_right x a)
    · exact ih (min x y) h'

lemma le_listMax {a : ℚ} {l : List ℚ} (h : a ∈ l) : a ≤ listMax l := by
  cases l with
  | nil => cases h
  | cons x xs =>
    rcases List.mem_cons.mp h with rfl | h'
    · exact le_foldMax_init a xs
    · exact le_foldMax_of_mem x h'

lemma listMax_mem {l : List ℚ} (h : l ≠ []) : listMax l ∈ l := by
  cases l with
  | nil => exact absurd rfl h
  | cons x xs => exact foldMax_mem x xs

lemma listMin_le {a : ℚ} {l : List ℚ} (h : a ∈ l) : listMin l ≤ a := by
  cases l with
  | nil => cases h
  | cons x xs =>
    rcases List.mem_cons.mp h with rfl | h'
    · exact foldMin_le_init a xs
    · exact foldMin_le_of_mem x h'

/-! ## C1 -/

/-- C1: the claim requires a step flagged truncated-but-not-terminated to
still receive the bootstrap term `gamma * expected_target_q` in DiscreteCRR's
one-step critic target. The code zeroes the bootstrap for every transition
with the `done` flag set, and `done` covers truncation: at `gamma = 99/100`,
`rew = 1`, `expected_target_q = 5`, the truncated-only transition receives
target `1`, identical to the terminated transition and different from the
claimed `1 + (99/100)*5`; only a non-boundary transition receives the
bootstrapped target. -/
theorem crr_truncation_bootstrap_dropped :
    crrCriticTarget (99/100) ⟨1, false, true⟩ 5 = 1 ∧
    crrCriticTarget (99/100) ⟨1, true, false⟩ 5 = 1 ∧
    crrCriticTarget (99/100) ⟨1, false, false⟩ 5 = 1 + (99/100) * 5 ∧
    (1 : ℚ) ≠ 1 + (99/100) * 5 := by
  refine ⟨?_, ?_, ?_, ?_⟩ <;> norm_num [crrCriticTarget, Transition.done]

/-! ## C3 -/

/-- C3 counterexample: with the default `update_actor_freq = 2`, TD3's second
`_update_with_batch` call (zero-based counter 1) leaves the registered pairs
untouched, so the Polyak update is not applied on every call. -/
theorem td3_polyak_skipped_on_second_call :
    (td3UpdateWithBatch (1/2) 2 ⟨[(1, 0)], 1⟩).pairs = [(1, 0)] ∧
    polyakUpdate (1/2) [(1, 0)] = [(1, 1/2)] ∧
    (td3UpdateWithBatch (1/2) 2 ⟨[(1, 0)], 1⟩).pairs ≠ polyakUpdate (1/2) [(1, 0)] := by
  refine ⟨by norm_num [td3UpdateWithBatch], by norm_num [polyakUpdate],
    by norm_num [td3UpdateWithBatch, polyakUpdate]⟩

/-- C3 (amended): DDPG, REDQ and DiscreteSAC apply the Polyak update
`shadow ← τ·source + (1-τ)·shadow` to every registered pair exactly once per
`_update_with_batch` call; TD3 applies it only on calls whose zero-based
counter is divisible by `update_actor_freq` and skips it otherwise. One
application rewrites all registered pairs in one call, and `τ = 1` degenerates
to the full copy. -/
theorem polyak_update_schedule (tau : ℚ) (updateActorFreq actorDelay : ℕ)
    (s : AlgState) (hfreq : 0 < updateActorFreq) :
    (ddpgUpdateWithBatch tau s).pairs = polyakUpdate tau s.pairs ∧
    (redqUpdateWithBatch tau actorDelay s).pairs = polyakUpdate tau s.pairs ∧
    (discreteSacUpdateWithBatch tau s).pairs = polyakUpdate tau s.pairs ∧
    ((td3UpdateWithBatch tau updateActorFreq s).pairs =
      if s.cnt % updateActorFreq = 0 then polyakUpdate tau s.pairs else s.pairs) ∧
    polyakUpdate tau s.pairs =
      s.pairs.map (fun p => (p.1, tau * p.1 + (1 - tau) * p.2)) ∧
    polyakUpdate 1 s.pairs = fullUpdate s.pairs := by
  refine ⟨rfl, rfl, rfl, ?_, rfl, ?_⟩
  · by_cases h : s.cnt % updateActorFreq = 0
    · simp [td3UpdateWithBatch, h]
    · simp [td3UpdateWithBatch, h]
  · simp [polyakUpdate, fullUpdate]

/-- C3 witness: the amended schedule evaluated for one registered pair at
`τ = 1/2`, `update_actor_freq = 2`, counter 0. -/
theorem polyak_update_schedule_witness :
    (ddpgUpdateWithBatch (1/2) ⟨[(1, 0)], 0⟩).pairs = polyakUpdate (1/2) [(1, 0)] ∧
    (redqUpdateWithBatch (1/2) 20 ⟨[(1, 0)], 0⟩).pairs = polyakUpdate (1/2) [(1, 0)] ∧
    (discreteSacUpdateWithBatch (1/2) ⟨[(1, 0)], 0⟩).pairs = polyakUpdate (1/2) [(1, 0)] ∧
    ((td3UpdateWithBatch (1/2) 2 ⟨[(1, 0)], 0⟩).pairs =
      if (0 : ℕ) % 2 = 0 then polyakUpdate (1/2) [(1, 0)] else [(1, 0)]) ∧
    polyakUpdate (1/2) [(1, 0)] =
      [((1 : ℚ), (0 : ℚ))].map (fun p => (p.1, (1/2) * p.1 + (1 - 1/2) * p.2)) ∧
    polyakUpdate 1 [((1 : ℚ), (0 : ℚ))] = fullUpdate [(1, 0)] :=
  polyak_update_schedule (1/2) 2 20 ⟨[(1, 0)], 0⟩ (by decide)

/-! ## C4 -/

/-- C4 counterexample: `tau = 0` lies outside `(0, 1]` yet passes the
construction check of the off-policy actor-critic base class (the assert is
`0.0 <= tau <= 1.0`); a non-positive `estimation_step = 0` passes the same
constructor unchecked; and `gamma = 2` outside `[0, 1]` passes the on-policy
actor-critic constructor, which only validates `gae_lambda`. -/
theorem construction_validation_gaps :
    actorCriticOffPolicyInitOk 0 (99/100) 1 = true ∧
    actorCriticOffPolicyInitOk (5/1000) (99/100) 0 = true ∧
    actorCriticOnPolicyInitOk (95/100) 2 = true := by
  refine ⟨?_, ?_, ?_⟩ <;>
    norm_num [actorCriticOffPolicyInitOk, actorCriticOnPolicyInitOk]

/-- C4 (amended): the construction-time checks are exactly these — the
off-policy actor-critic constructor accepts iff `τ ∈ [0, 1]` (not `(0, 1]`)
and `γ ∈ [0, 1]`, with `estimation_step` unchecked; the on-policy
actor-critic constructor accepts iff `gae_lambda ∈ [0, 1]`, with `γ`
unchecked; the Q-learning constructor accepts iff `γ ∈ [0, 1]` and
`estimation_step > 0`; the discounted-return computation accepts iff
`γ ∈ [0, 1]`; REDQ additionally requires `0 < subset_size ≤ ensemble_size`. -/
theorem construction_validation_characterization
    (tau gamma lam : ℚ) (estStep : ℤ) (subset ensemble : ℕ) :
    (actorCriticOffPolicyInitOk tau gamma estStep = true ↔
      (0 ≤ tau ∧ tau ≤ 1) ∧ (0 ≤ gamma ∧ gamma ≤ 1)) ∧
    (actorCriticOnPolicyInitOk lam gamma = true ↔ (0 ≤ lam ∧ lam ≤ 1)) ∧
    (qLearningInitOk gamma estStep = true ↔
      ((0 ≤ gamma ∧ gamma ≤ 1) ∧ 0 < estStep)) ∧
    (discountedReturnInitOk gamma = true ↔ (0 ≤ gamma ∧ gamma ≤ 1)) ∧
    (redqInitOk subset ensemble tau gamma estStep = true ↔
      ((0 < subset ∧ subset ≤ ensemble) ∧
        (0 ≤ tau ∧ tau ≤ 1) ∧ (0 ≤ gamma ∧ gamma ≤ 1))) := by
  simp [actorCriticOffPolicyInitOk, actorCriticOnPolicyInitOk, qLearningInitOk,
    discountedReturnInitOk, redqInitOk]

/-! ## C5 -/

/-- C5: with `target_update_freq > 0`, the DQN-family periodic updater, the
DiscreteBCQ update step and the DiscreteCRR update step each perform the full
lagged-network overwrite exactly on calls whose zero-based counter is
divisible by the frequency (hence on the very first call), the overwrite
replaces every shadow by its source, and with `target_update_freq = 0` no
lagged network is created and no call triggers an update (DiscreteBCQ's
unguarded modulo raises `ZeroDivisionError` there instead of updating). -/
theorem lagged_full_update_schedule (freq k : ℕ) (s : AlgState) (hfreq : 0 < freq) :
    (dqnPeriodicTrigger freq k = true ↔ k % freq = 0) ∧
    dqnPeriodicTrigger freq 0 = true ∧
    (bcqPeriodicTrigger freq k = Except.ok true ↔ k % freq = 0) ∧
    (crrPeriodicTrigger freq k = true ↔ k % freq = 0) ∧
    ((dqnPeriodicStep freq s).pairs =
      if dqnPeriodicTrigger freq s.cnt then fullUpdate s.pairs else s.pairs) ∧
    (dqnPeriodicStep freq s).cnt = s.cnt + 1 ∧
    (∀ pairs, fullUpdate pairs = pairs.map (fun p => (p.1, p.1))) ∧
    (dqnCreatesLaggedNetwork 0 = false ∧ crrCreatesLaggedNetwork 0 = false ∧
      bcqCreatesLaggedNetwork 0 = false) ∧
    (dqnPeriodicTrigger 0 k = false ∧ crrPeriodicTrigger 0 k = false ∧
      bcqPeriodicTrigger 0 k = Except.error "ZeroDivisionError") := by
  have hb : (0 < freq : Bool) = true := decide_eq_true hfreq
  refine ⟨?_, ?_, ?_, ?_, rfl, rfl, fun _ => rfl, ⟨rfl, rfl, rfl⟩, ⟨?_, ?_, ?_⟩⟩
  · simp [dqnPeriodicTrigger, dqnUseTargetNetwork, hb]
  · simp [dqnPeriodicTrigger, dqnUseTargetNetwork, hb, Nat.zero_mod]
  · simp [bcqPeriodicTrigger, Nat.pos_iff_ne_zero.mp hfreq]
  · simp [crrPeriodicTrigger, hb]
  · simp [dqnPeriodicTrigger, dqnUseTargetNetwork]
  · simp [crrPeriodicTrigger]
  · simp [bcqPeriodicTrigger]

/-- C5 witness: the schedule evaluated at `target_update_freq = 2`, call
counter 4, and a single registered pair. -/
theorem lagged_full_update_schedule_witness :
    ((dqnPeriodicTrigger 2 4 = true ↔ 4 % 2 = 0) ∧
      dqnPeriodicTrigger 2 0 = true ∧
      (bcqPeriodicTrigger 2 4 = Except.ok true ↔ 4 % 2 = 0) ∧
      (crrPeriodicTrigger 2 4 = true ↔ 4 % 2 = 0) ∧
      ((dqnPeriodicStep 2 ⟨[(1, 0)], 4⟩).pairs =
        if dqnPeriodicTrigger 2 (AlgState.mk [(1, 0)] 4).cnt then fullUpdate [(1, 0)]
        else [(1, 0)]) ∧
      (dqnPeriodicStep 2 ⟨[(1, 0)], 4⟩).cnt = 4 + 1 ∧
      (∀ pairs, fullUpdate pairs = pairs.map (fun p => (p.1, p.1))) ∧
      (dqnCreatesLaggedNetwork 0 = false ∧ crrCreatesLaggedNetwork 0 = false ∧
        bcqCreatesLaggedNetwork 0 = false) ∧
      (dqnPeriodicTrigger 0 4 = false ∧ crrPeriodicTrigger 0 4 = false ∧
        bcqPeriodicTrigger 0 4 = Except.error "ZeroDivisionError")) :=
  lagged_full_update_schedule 2 4 ⟨[(1, 0)], 4⟩ (by decide)

/-! ## C9 -/

/-- C9: constructing DiscreteCRR with `target_update_freq = 0` (the parameter
default) always fails with an `AttributeError`, because the constructor then
executes `self.actor_old = self.actor` and no attribute named `actor` was
ever assigned on the algorithm object; with any `target_update_freq > 0`
construction succeeds. -/
theorem crr_construction_requires_target (freq : ℕ) (h : 0 < freq) :
    crrInit 0 =
      Except.error "AttributeError: DiscreteCRR object has no attribute actor" ∧
    (crrInit freq).isOk = true := by
  constructor
  · rfl
  · simp [crrInit, h, Except.isOk, Except.toBool]

/-- C9 witness: construction fails at the default frequency 0 and succeeds at
frequency 1. -/
theorem crr_construction_requires_target_witness :
    crrInit 0 =
      Except.error "AttributeError: DiscreteCRR object has no attribute actor" ∧
    (crrInit 1).isOk = true :=
  crr_construction_requires_target 1 (by decide)

/-! ## C2: lemmas on the GAE recursion -/

lemma gaeAdv_lambda_zero (gamma : ℚ) (l : List Step) :
    gaeAdv gamma 0 l = l.map (tdDelta gamma) := by
  induction l with
  | nil => rfl
  | cons s rest ih => simp [gaeAdv, ih]

lemma mcReturn_length (gamma : ℚ) (l : List Step) :
    (mcReturn gamma l).length = l.length := by
  induction l with
  | nil => rfl
  | cons s rest ih => simp [mcReturn, ih]

lemma gaeAdv_lambda_one (gamma : ℚ) :
    ∀ l : List Step, valueChain l →
      gaeAdv gamma 1 l =
        List.zipWith (fun g v => g - v) (mcReturn gamma l) (l.map Step.v_s)
  | [], _ => rfl
  | [s], _ => by
    simp only [gaeAdv, mcReturn, List.map_cons, List.map_nil,
      List.zipWith_cons_cons, List.zipWith_nil_right, List.headD_nil,
      List.cons.injEq, and_true]
    unfold tdDelta
    ring
  | s :: s' :: rest, h => by
    obtain ⟨hadj, hchain⟩ := List.chain'_cons.mp h
    have ih := gaeAdv_lambda_one gamma (s' :: rest) hchain
    have hL : gaeAdv gamma 1 (s :: s' :: rest) =
        (tdDelta gamma s + gamma * 1 * notDone s *
          (gaeAdv gamma 1 (s' :: rest)).headD 0) :: gaeAdv gamma 1 (s' :: rest) := rfl
    have hR : mcReturn gamma (s :: s' :: rest) =
        (s.rew + gamma * notDone s * ((mcReturn gamma (s' :: rest)).headD s.v_s_))
          :: mcReturn gamma (s' :: rest) := rfl
    have hmc : mcReturn gamma (s' :: rest) =
        (s'.rew + gamma * notDone s' * ((mcReturn gamma rest).headD s'.v_s_))
          :: mcReturn gamma rest := rfl
    rw [hL, hR, ih, hmc]
    simp only [List.map_cons, List.zipWith_cons_cons, List.headD_cons,
      List.cons.injEq, and_true, true_and]
    unfold tdDelta notDone
    cases hdone : s.done with
    | false =>
      rw [hadj hdone, if_neg Bool.false_ne_true]
      ring
    | true =>
      rw [if_pos rfl]
      ring

lemma zipWith_sub_add_cancel :
    ∀ (xs ys : List ℚ), xs.length = ys.length →
      List.zipWith (fun a v => a + v)
        (List.zipWith (fun g v => g - v) xs ys) ys = xs
  | [], [], _ => rfl
  | [], _ :: _, h => by simp at h
  | _ :: _, [], h => by simp at h
  | x :: xs, y :: ys, h => by
    simp only [List.zipWith_cons_cons, List.cons.injEq]
    exact ⟨by ring, zipWith_sub_add_cancel xs ys (by simpa using h)⟩

/-- C2: for every batch of steps — multi-episode batches included — whose
caller-supplied value estimates are consistent within each episode
(`V(s_{i+1})` of a non-boundary step is `V(s_i)` of the next step; across a
`done` boundary nothing is required), the GAE advantages with `λ = 1` equal
the Monte-Carlo discounted returns minus the value baseline; with `λ = 0`
they equal the one-step TD residuals exactly (this needs no consistency
hypothesis); and `DiscountedReturnComputation`'s unnormalized returns — the
episodic-return computation invoked with `gae_lambda = 1.0` — equal the
Monte-Carlo discounted returns. -/
theorem gae_lambda_identities (gamma : ℚ) (l : List Step) (h : valueChain l) :
    gaeAdv gamma 1 l =
      List.zipWith (fun g v => g - v) (mcReturn gamma l) (l.map Step.v_s) ∧
    gaeAdv gamma 0 l = l.map (tdDelta gamma) ∧
    discountedReturnUnnormalized gamma l = mcReturn gamma l := by
  refine ⟨gaeAdv_lambda_one gamma l h, gaeAdv_lambda_zero gamma l, ?_⟩
  unfold discountedReturnUnnormalized episodicReturn
  rw [gaeAdv_lambda_one gamma l h]
  exact zipWith_sub_add_cancel (mcReturn gamma l) (l.map Step.v_s)
    (by rw [mcReturn_length, List.length_map])

/-- C2 witness: the identities evaluated on a two-episode batch (`γ = 1/2`,
a one-step terminated episode followed by a two-step episode): across the
episode boundary the value estimates disagree (`999 ≠ 20`), which the
within-episode consistency hypothesis permits. -/
theorem gae_lambda_identities_witness :
    (gaeAdv (1/2) 1 [⟨1, 10, 999, true⟩, ⟨2, 20, 30, false⟩, ⟨3, 30, 40, true⟩] =
      List.zipWith (fun g v => g - v)
        (mcReturn (1/2) [⟨1, 10, 999, true⟩, ⟨2, 20, 30, false⟩, ⟨3, 30, 40, true⟩])
        (([⟨1, 10, 999, true⟩, ⟨2, 20, 30, false⟩, ⟨3, 30, 40, true⟩] :
          List Step).map Step.v_s)) ∧
    gaeAdv (1/2) 0 [⟨1, 10, 999, true⟩, ⟨2, 20, 30, false⟩, ⟨3, 30, 40, true⟩] =
      ([⟨1, 10, 999, true⟩, ⟨2, 20, 30, false⟩, ⟨3, 30, 40, true⟩] :
        List Step).map (tdDelta (1/2)) ∧
    discountedReturnUnnormalized (1/2)
        [⟨1, 10, 999, true⟩, ⟨2, 20, 30, false⟩, ⟨3, 30, 40, true⟩] =
      mcReturn (1/2) [⟨1, 10, 999, true⟩, ⟨2, 20, 30, false⟩, ⟨3, 30, 40, true⟩] :=
  gae_lambda_identities (1/2)
    [⟨1, 10, 999, true⟩, ⟨2, 20, 30, false⟩, ⟨3, 30, 40, true⟩]
    (by simp [valueChain])

/-! ## C6 -/

/-- C6: in the A2C GAE pipeline with reward normalization enabled, the
critic's value estimates are unnormalized (multiplied by the factor standing
for `sqrt(ret_rms.var + eps)`) before the TD residual is formed — the
residuals are exactly those of the batch with both value columns scaled — and
the unnormalized returns are renormalized (divided by the same factor)
afterwards; with normalization disabled, returns and advantages are exactly
the plain episodic returns and GAE advantages of the raw batch. -/
theorem value_normalization_dataflow (sigma gamma lam : ℚ) (l : List Step) :
    addReturnsAndAdvantages true sigma gamma lam l =
      ((episodicReturn gamma lam (scaleValues sigma l)).map (fun x => x / sigma),
        gaeAdv gamma lam (scaleValues sigma l)) ∧
    (scaleValues sigma l).map (tdDelta gamma) =
      l.map (fun s =>
        s.rew + gamma * (s.v_s_ * sigma) * notDone s - s.v_s * sigma) ∧
    addReturnsAndAdvantages false sigma gamma lam l =
      (episodicReturn gamma lam l, gaeAdv gamma lam l) := by
  refine ⟨rfl, ?_, rfl⟩
  rw [scaleValues, List.map_map]
  rfl

/-! ## C7 -/

lemma processBatches_getD (std : RunningStats → ℚ) (s0 : RunningStats)
    (bs : List (List ℚ)) (k : ℕ) :
    (processBatches std s0 bs).1.getD k [] =
      normalizeReturns std ((bs.take k).foldl RunningStats.update s0)
        (bs.getD k []) := by
  induction bs generalizing s0 k with
  | nil => simp [processBatches, normalizeReturns]
  | cons b rest ih =>
    cases k with
    | zero => simp [processBatches]
    | succ k' =>
      simpa [processBatches] using ih (s0.update b) k'

/-- C7: when a stream of batches of unnormalized returns is processed with
reward normalization enabled, the `k`-th batch's returns are normalized with
the running statistics obtained by folding the updates over the first `k`
batches only — the statistics lag one batch behind, because each batch is
normalized before the statistics are updated with it. -/
theorem normalization_statistics_lag (std : RunningStats → ℚ)
    (s0 : RunningStats) (bs : List (List ℚ)) (k : ℕ) :
    (processBatches std s0 bs).1.getD k [] =
      normalizeReturns std ((bs.take k).foldl RunningStats.update s0)
        (bs.getD k []) :=
  processBatches_getD std s0 bs k

/-! ## C8 -/

lemma mem_tensor_flatten {rows : List (List (ℚ × Bool))} {r : List (ℚ × Bool)}
    {p : ℚ × Bool} (hr : r ∈ rows) (hp : p ∈ r) :
    p.1 ∈ (rows.map (fun row => row.map Prod.fst)).flatten := by
  rw [List.mem_flatten]
  exact ⟨r.map Prod.fst, List.mem_map_of_mem _ hr, List.mem_map_of_mem _ hp⟩

lemma dqnShift_separates {rows : List (List (ℚ × Bool))} {r : List (ℚ × Bool)}
    (hr : r ∈ rows) :
    ∀ a ∈ r.map (dqnShiftEntry (dqnMinValue rows)), a.2 = true →
      ∀ d ∈ r.map (dqnShiftEntry (dqnMinValue rows)), d.2 = false → d.1 < a.1 := by
  intro a ha ha2 d hd hd2
  simp only [List.mem_map] at ha hd
  obtain ⟨p, hp, rfl⟩ := ha
  obtain ⟨p', hp', rfl⟩ := hd
  simp only [dqnShiftEntry] at ha2 hd2 ⊢
  have hub := le_listMax (mem_tensor_flatten hr hp)
  have hub' := le_listMax (mem_tensor_flatten hr hp')
  have hlb := listMin_le (mem_tensor_flatten hr hp)
  have hmv : dqnMinValue rows =
      listMin ((rows.map (fun row => row.map Prod.fst)).flatten) -
        listMax ((rows.map (fun row => row.map Prod.fst)).flatten) - 1 := rfl
  rw [ha2, hd2, hmv]
  rw [if_pos rfl, if_neg (by simp)]
  simp only [zero_mul, add_zero, one_mul]
  linarith

/-- C8: for every batch of `(logit, allowed)` rows in which every row allows
at least one action, `DQNPolicy.compute_q_value` assigns every disallowed
entry a q-value strictly smaller than every allowed entry's q-value in the
same row (disallowed entries are shifted by `logits.min() - logits.max() - 1`),
and the row-wise argmax of `DQNPolicy.forward` therefore always selects an
allowed entry. -/
theorem dqn_masked_argmax_allowed (rows : List (List (ℚ × Bool)))
    (hrows : ∀ r ∈ rows, ∃ p ∈ r, p.2 = true) :
    ∀ qr ∈ dqnComputeQ rows,
      (∀ a ∈ qr, a.2 = true → ∀ d ∈ qr, d.2 = false → d.1 < a.1) ∧
      ∃ chosen ∈ qr.argmax Prod.fst, chosen.2 = true := by
  intro qr hqr
  simp only [dqnComputeQ, List.mem_map] at hqr
  obtain ⟨r, hr, rfl⟩ := hqr
  have hsep := dqnShift_separates hr
  refine ⟨hsep, ?_⟩
  obtain ⟨p0, hp0, hp0t⟩ := hrows r hr
  have ha0 : dqnShiftEntry (dqnMinValue rows) p0 ∈
      r.map (dqnShiftEntry (dqnMinValue rows)) :=
    List.mem_map_of_mem _ hp0
  cases hc : (r.map (dqnShiftEntry (dqnMinValue rows))).argmax Prod.fst with
  | none =>
    rw [List.argmax_eq_none] at hc
    rw [hc] at ha0
    exact absurd ha0 (List.not_mem_nil _)
  | some chosen =>
    refine ⟨chosen, rfl, ?_⟩
    cases h2 : chosen.2 with
    | true => rfl
    | false =>
      have hmem : chosen ∈ r.map (dqnShiftEntry (dqnMinValue rows)) :=
        List.argmax_mem hc
      have hlt : chosen.1 < (dqnShiftEntry (dqnMinValue rows) p0).1 :=
        hsep _ ha0 (by simp [dqnShiftEntry, hp0t]) chosen hmem h2
      have hle : (dqnShiftEntry (dqnMinValue rows) p0).1 ≤ chosen.1 :=
        List.le_of_mem_argmax ha0 hc
      exact absurd hle (not_le.mpr hlt)

/-- C8 witness: a one-row batch with logits `3, 5, 4` where only the middle
action is allowed; the masked entries drop to `0` and `1`, strictly below the
allowed `5`, and the argmax picks the allowed entry. -/
theorem dqn_masked_argmax_allowed_witness :
    (∀ a ∈ ([((0 : ℚ), false), (5, true), (1, false)] : List (ℚ × Bool)),
      a.2 = true →
      ∀ d ∈ ([((0 : ℚ), false), (5, true), (1, false)] : List (ℚ × Bool)),
        d.2 = false → d.1 < a.1) ∧
    ∃ chosen ∈ ([((0 : ℚ), false), (5, true), (1, false)] :
        List (ℚ × Bool)).argmax Prod.fst, chosen.2 = true :=
  dqn_masked_argmax_allowed [[((3 : ℚ), false), (5, true), (4, false)]]
    (by intro r hr; rw [List.mem_singleton] at hr; subst hr
        exact ⟨(5, true), by simp, rfl⟩)
    [((0 : ℚ), false), (5, true), (1, false)]
    (by
      have hval : dqnComputeQ [[((3 : ℚ), false), (5, true), (4, false)]]
          = [[((0 : ℚ), false), (5, true), (1, false)]] := by
        norm_num [dqnComputeQ, dqnShiftEntry, dqnMinValue, tensorMin, tensorMax,
          listMin, listMax, foldMin, foldMax]
      rw [hval]
      exact List.mem_singleton.mpr rfl)

/-! ## C10 -/

/-- C10 counterexample: with stored threshold `_log_tau = -1/2` (i.e. an
`unlikely_action_threshold` of `e^{-1/2} ≈ 0.607 ∈ [0, 1)`) and a row with
imitation logits `0, -1` and q-values `-1, INF` (both representable float32
values), the second action is masked (ratio `-1 < -1/2`) yet is returned by
the argmax, because its q-value advantage over the unmasked action exceeds
the finite shift `INF`: so the returned action's logit ratio is *below*
`log(threshold)`. -/
theorem bcq_masked_action_returned :
    (((-1/2 : ℚ) : WithBot ℚ) < ((0 : ℚ) : WithBot ℚ)) ∧
    bcqForward ((-1/2 : ℚ) : WithBot ℚ) [(-1, 0), (bcqINF, -1)] =
      some (bcqINF, -1) ∧
    bcqMask ((-1/2 : ℚ) : WithBot ℚ)
      (bcqMaxLogit [((-1 : ℚ), (0 : ℚ)), (bcqINF, -1)]) (-1) = true := by
  refine ⟨by exact_mod_cast (by norm_num : (-1/2 : ℚ) < 0), ?_, ?_⟩
  · norm_num [bcqForward, bcqMaxLogit, listMax, foldMax, List.argmax, List.argAux,
      bcqMask, bcqINF, WithBot.coe_lt_coe]
  · norm_num [bcqMask, bcqMaxLogit, listMax, foldMax, bcqINF, WithBot.coe_lt_coe]

/-- C10 (amended): for every nonempty row and every stored threshold
`_log_tau < 0` (the image of an `unlikely_action_threshold` in `[0, 1)`,
with `⊥` standing for the `-inf` of a zero threshold), the action with the
maximal imitation logit has ratio 0 and is never masked, so the candidate set
of unmasked actions is nonempty; and provided every pairwise difference of
q-values in the row is smaller than `INF` (`torch.finfo(torch.float32).max`),
the action returned by `DiscreteBCQPolicy.forward` is unmasked, i.e. its
imitation-logit ratio is at least `log(threshold)`. -/
theorem bcq_unmasked_argmax_of_bounded (logTau : WithBot ℚ)
    (row : List (ℚ × ℚ)) (htau : logTau < ((0 : ℚ) : WithBot ℚ))
    (hne : row ≠ [])
    (hspread : ∀ p ∈ row, ∀ q ∈ row, p.1 - q.1 < bcqINF) :
    (∃ p ∈ row, bcqMask logTau (bcqMaxLogit row) p.2 = false) ∧
    ∃ chosen ∈ bcqForward logTau row,
      bcqMask logTau (bcqMaxLogit row) chosen.2 = false := by
  have hmapne : row.map Prod.snd ≠ [] := by
    intro hempty
    exact hne (List.map_eq_nil_iff.mp hempty)
  obtain ⟨u, hu, huq⟩ := List.mem_map.mp (listMax_mem hmapne)
  have humask : bcqMask logTau (bcqMaxLogit row) u.2 = false := by
    rw [bcqMask, bcqMaxLogit, huq, sub_self]
    exact decide_eq_false (fun hlt => absurd htau (lt_asymm hlt))
  refine ⟨⟨u, hu, humask⟩, ?_⟩
  rw [bcqForward]
  cases hc : row.argmax (fun p =>
      p.1 - bcqINF * (if bcqMask logTau (bcqMaxLogit row) p.2 then 1 else 0)) with
  | none =>
    exact absurd (List.argmax_eq_none.mp hc) hne
  | some chosen =>
    refine ⟨chosen, rfl, ?_⟩
    cases h2 : bcqMask logTau (bcqMaxLogit row) chosen.2 with
    | false => rfl
    | true =>
      exfalso
      have hmem : chosen ∈ row := List.argmax_mem hc
      have hle := List.le_of_mem_argmax hu hc
      rw [humask, h2] at hle
      simp at hle
      have hsp := hspread chosen hmem u hu
      linarith

/-- C10 witness: the amended statement evaluated on the row with q-values
`0, 1` and imitation logits `0, -1` at `_log_tau = -1/2`, whose q-value
spread is far below `INF`. -/
theorem bcq_unmasked_argmax_of_bounded_witness :
    (∃ p ∈ [((0 : ℚ), (0 : ℚ)), (1, -1)],
      bcqMask ((-1/2 : ℚ) : WithBot ℚ)
        (bcqMaxLogit [((0 : ℚ), (0 : ℚ)), (1, -1)]) p.2 = false) ∧
    ∃ chosen ∈ bcqForward ((-1/2 : ℚ) : WithBot ℚ) [((0 : ℚ), (0 : ℚ)), (1, -1)],
      bcqMask ((-1/2 : ℚ) : WithBot ℚ)
        (bcqMaxLogit [((0 : ℚ), (0 : ℚ)), (1, -1)]) chosen.2 = false :=
  bcq_unmasked_argmax_of_bounded ((-1/2 : ℚ) : WithBot ℚ)
    [((0 : ℚ), (0 : ℚ)), (1, -1)]
    (by exact_mod_cast (by norm_num : (-1/2 : ℚ) < 0))
    (by simp)
    (by
      intro p hp q hq
      fin_cases hp <;> fin_cases hq <;> norm_num [bcqINF])

end Tianshou
